import Mathlib

/-!
Shallow embedding of the lock-manager service (`src/index.js`) and its Mongoose
schema (`src/models/ResourceLock.js`).

Timestamps (`Date` values) are modelled as natural numbers counting
milliseconds.  The MongoDB collection is modelled as a list of records; the
schema unique index on `resource_name` is captured by the `storeWF`
well-formedness predicate and by the fact that an insert fails with a
duplicate-key error exactly when a record with the same `resource_name` is
already present.
-/

set_option autoImplicit false

namespace LockService

/-- One document of the `ResourceLock` collection (`src/models/ResourceLock.js`,
fields `resource_name`, `process_id_str`, `locked_at`, `expires_at`;
`expires_at` defaults to `null`, modelled as `none`). -/
structure LockRecord where
  resource_name : String
  process_id_str : String
  locked_at : Nat
  expires_at : Option Nat
deriving DecidableEq

/-- The MongoDB collection of `ResourceLock` documents. -/
abbrev Store := List LockRecord

/-- Model of `ResourceLock.findOne({ resource_name })`: the first document whose
`resource_name` matches, if any. -/
def findOne (s : Store) (resource_name : String) : Option LockRecord :=
  match s with
  | [] => none
  | lock :: rest =>
      if lock.resource_name = resource_name then some lock
      else findOne rest resource_name

/-- Model of `ResourceLock.deleteOne({ resource_name })`: removes at most one (the
first) document whose `resource_name` matches. -/
def deleteOne (s : Store) (resource_name : String) : Store :=
  match s with
  | [] => []
  | lock :: rest =>
      if lock.resource_name = resource_name then rest
      else lock :: deleteOne rest resource_name

/-- The expiry test used by every handler:
`lock.expires_at && lock.expires_at < currentTime` (a `null` `expires_at` is
falsy, so a record without `expires_at` is never expired). -/
def isExpired (lock : LockRecord) (now : Nat) : Bool :=
  match lock.expires_at with
  | none => false
  | some e => decide (e < now)

/-- Model of `const expires_at = ttl_seconds ? new Date(locked_at.getTime() + ttl_seconds * 1000) : null;`
(`src/index.js` line 54).  In JavaScript `0` is falsy, so `ttl_seconds = 0`
yields `null` exactly like an absent `ttl_seconds`. -/
def jsExpiresAt (ttl_seconds : Option Nat) (locked_at : Nat) : Option Nat :=
  match ttl_seconds with
  | none => none
  | some 0 => none
  | some t => some (locked_at + t * 1000)

/-- The unique index of the schema: no two documents share a `resource_name`. -/
def storeWF (s : Store) : Bool :=
  match s with
  | [] => true
  | lock :: rest => (findOne rest lock.resource_name).isNone && storeWF rest

/-- Responses of `POST /locks/request`: HTTP 400, HTTP 409 with
`{status: "denied", resource_name, locked_by}`, HTTP 200 with
`{status: "acquired", resource_name, process_id_str}`, or HTTP 500. -/
inductive AcquireResult where
  | invalidArgument
  | denied (resource_name locked_by : String)
  | acquired (resource_name process_id_str : String)
  | serverError
deriving DecidableEq

/-- A record inserted by a concurrent request between the `findOne` of line 31
and the `save()` of line 63.  The concurrent insert itself goes through the
unique index, so it only lands when no record with its key is present. -/
def raceStep (s1 : Store) (race : Option LockRecord) : Store :=
  match race with
  | none => s1
  | some rrec =>
      if (findOne s1 rrec.resource_name).isSome then s1 else s1 ++ [rrec]

/-- Lines 52–78 of `src/index.js`: build the new lock and `save()` it.
If a record with `resource_name` exists at save time the unique index raises
the duplicate-key error (code 11000) and the catch block of lines 70–78
re-reads the record and answers 409. -/
def acquireInsert (s1 : Store) (now : Nat) (resource_name process_id_str : String)
    (ttl_seconds : Option Nat) (race : Option LockRecord) : AcquireResult × Store :=
  let s2 := raceStep s1 race
  match findOne s2 resource_name with
  | some existingLock => (.denied resource_name existingLock.process_id_str, s2)
  | none =>
      (.acquired resource_name process_id_str,
       s2 ++ [{ resource_name := resource_name, process_id_str := process_id_str,
                locked_at := now, expires_at := jsExpiresAt ttl_seconds now }])

/-- Handler of `POST /locks/request` (`src/index.js` lines 21–81): validate, read the
current record, reclaim it if expired, deny if a record remains, otherwise
insert the new lock. -/
def acquireOp (s : Store) (now : Nat) (resource_name process_id_str : String)
    (ttl_seconds : Option Nat) (race : Option LockRecord) : AcquireResult × Store :=
  if resource_name = "" ∨ process_id_str = "" then (.invalidArgument, s)
  else
    match findOne s resource_name with
    | some existingLock =>
        if isExpired existingLock now then
          acquireInsert (deleteOne s resource_name) now resource_name process_id_str
            ttl_seconds race
        else (.denied resource_name existingLock.process_id_str, s)
    | none => acquireInsert s now resource_name process_id_str ttl_seconds race

/-- Responses of `POST /locks/release`: HTTP 400, HTTP 404
`{status: "resource_not_locked"}`, HTTP 403 `{status: "not_locked_by_process"}`,
or HTTP 200 `{status: "released"}`. -/
inductive ReleaseResult where
  | invalidArgument
  | resourceNotLocked (resource_name : String)
  | notLockedByProcess (resource_name : String)
  | released (resource_name : String)
deriving DecidableEq

/-- Handler of `POST /locks/release` (`src/index.js` lines 84–118). -/
def releaseOp (s : Store) (resource_name process_id_str : String) :
    ReleaseResult × Store :=
  if resource_name = "" ∨ process_id_str = "" then (.invalidArgument, s)
  else
    match findOne s resource_name with
    | none => (.resourceNotLocked resource_name, s)
    | some existingLock =>
        if existingLock.process_id_str ≠ process_id_str then
          (.notLockedByProcess resource_name, s)
        else (.released resource_name, deleteOne s resource_name)

/-- Responses of `GET /locks/status/:resource_name`:
`{resource_name, is_locked: false}` or
`{resource_name, is_locked: true, locked_by, locked_at}`. -/
inductive StatusResult where
  | unlocked (resource_name : String)
  | locked (resource_name locked_by : String) (locked_at : Nat)
deriving DecidableEq

/-- Handler of `GET /locks/status/:resource_name` (`src/index.js` lines 121–153):
an expired record is reclaimed and the resource reported unlocked. -/
def statusOp (s : Store) (now : Nat) (resource_name : String) :
    StatusResult × Store :=
  match findOne s resource_name with
  | none => (.unlocked resource_name, s)
  | some lock =>
      if isExpired lock now then (.unlocked resource_name, deleteOne s resource_name)
      else (.locked resource_name lock.process_id_str lock.locked_at, s)

/-- One element of the `GET /locks/all-locked` response. -/
structure LockView where
  resource_name : String
  locked_by : String
  locked_at : Nat
deriving DecidableEq

/-- The loop of `src/index.js` lines 162–173: walk the snapshot returned by
`find()`, delete each expired record from the store, push each live one onto
`validLocks`. -/
def allLockedGo (now : Nat) (locks : List LockRecord) (validLocks : List LockView)
    (st : Store) : List LockView × Store :=
  match locks with
  | [] => (validLocks, st)
  | lock :: rest =>
      if isExpired lock now then
        allLockedGo now rest validLocks (deleteOne st lock.resource_name)
      else
        allLockedGo now rest
          (validLocks ++ [{ resource_name := lock.resource_name,
                            locked_by := lock.process_id_str,
                            locked_at := lock.locked_at }]) st

/-- Handler of `GET /locks/all-locked` (`src/index.js` lines 156–179): the snapshot of
`ResourceLock.find()` is the whole store. -/
def allLockedOp (s : Store) (now : Nat) : List LockView × Store :=
  allLockedGo now s [] s

/-- One element of the `GET /locks/process/:process_id_str` response
(no `locked_by` field: the holder is the query key). -/
structure ProcessLockView where
  resource_name : String
  locked_at : Nat
deriving DecidableEq

/-- The loop of `src/index.js` lines 190–200. -/
def processLocksGo (now : Nat) (locks : List LockRecord)
    (validLocks : List ProcessLockView) (st : Store) :
    List ProcessLockView × Store :=
  match locks with
  | [] => (validLocks, st)
  | lock :: rest =>
      if isExpired lock now then
        processLocksGo now rest validLocks (deleteOne st lock.resource_name)
      else
        processLocksGo now rest
          (validLocks ++ [{ resource_name := lock.resource_name,
                            locked_at := lock.locked_at }]) st

/-- Handler of `GET /locks/process/:process_id_str` (`src/index.js` lines 182–206):
`ResourceLock.find({ process_id_str })` snapshots the matching records. -/
def processLocksOp (s : Store) (now : Nat) (process_id_str : String) :
    List ProcessLockView × Store :=
  processLocksGo now (s.filter (fun l => l.process_id_str = process_id_str)) [] s

/-! ### Basic lemmas about the store primitives -/

theorem findOne_append_some {s : Store} {rn : String} {rec : LockRecord}
    (h : findOne s rn = some rec) (t : Store) :
    findOne (s ++ t) rn = some rec := by
  induction s with
  | nil => simp [findOne] at h
  | cons lock rest ih =>
      simp only [findOne, List.cons_append] at h ⊢
      split at h
      · simp_all
      · simp only [*, if_neg]
        exact ih h

theorem findOne_append_none {s : Store} {rn : String}
    (h : findOne s rn = none) (t : Store) :
    findOne (s ++ t) rn = findOne t rn := by
  induction s with
  | nil => simp
  | cons lock rest ih =>
      simp only [findOne, List.cons_append] at h ⊢
      split at h
      · exact absurd h (by simp)
      · simp only [*, if_neg]
        exact ih h

theorem findOne_deleteOne_ne {s : Store} {rn rn2 : String} (h : rn ≠ rn2) :
    findOne (deleteOne s rn) rn2 = findOne s rn2 := by
  induction s with
  | nil => simp [deleteOne]
  | cons lock rest ih =>
      simp only [deleteOne, findOne]
      split
      · have : ¬ lock.resource_name = rn2 := by
          intro hc
          exact h (by simp_all)
        simp [findOne, this]
      · simp only [findOne]
        split
        · rfl
        · exact ih

theorem findOne_none_of_not_mem {s : Store} {rn : String}
    (h : ∀ l ∈ s, l.resource_name ≠ rn) : findOne s rn = none := by
  induction s with
  | nil => rfl
  | cons lock rest ih =>
      simp only [findOne]
      rw [if_neg (h lock (by simp))]
      exact ih (fun l hl => h l (by simp [hl]))

theorem not_mem_of_findOne_none {s : Store} {rn : String}
    (h : findOne s rn = none) : ∀ l ∈ s, l.resource_name ≠ rn := by
  induction s with
  | nil => simp
  | cons lock rest ih =>
      intro l hl
      simp only [findOne] at h
      split at h
      · exact absurd h (by simp)
      · rcases List.mem_cons.mp hl with rfl | hl2
        · assumption
        · exact ih h l hl2

theorem findOne_none_deleteOne {s : Store} {rn rn2 : String}
    (h : findOne s rn2 = none) : findOne (deleteOne s rn) rn2 = none := by
  induction s with
  | nil => simpa [deleteOne] using h
  | cons lock rest ih =>
      simp only [findOne] at h
      by_cases h1 : lock.resource_name = rn2
      · rw [if_pos h1] at h
        exact absurd h (by simp)
      · rw [if_neg h1] at h
        simp only [deleteOne]
        by_cases h2 : lock.resource_name = rn
        · rw [if_pos h2]
          exact h
        · rw [if_neg h2]
          simp only [findOne]
          rw [if_neg h1]
          exact ih h

theorem findOne_mem {s : Store} {rn : String} {rec : LockRecord}
    (h : findOne s rn = some rec) : rec ∈ s ∧ rec.resource_name = rn := by
  induction s with
  | nil => simp [findOne] at h
  | cons lock rest ih =>
      simp only [findOne] at h
      split at h
      · cases h
        exact ⟨by simp, by assumption⟩
      · obtain ⟨h1, h2⟩ := ih h
        exact ⟨by simp [h1], h2⟩

theorem storeWF_cons {lock : LockRecord} {rest : Store} :
    storeWF (lock :: rest) = true ↔
      findOne rest lock.resource_name = none ∧ storeWF rest = true := by
  simp [storeWF, Option.isNone_iff_eq_none, Bool.and_eq_true]

theorem storeWF_deleteOne {s : Store} (h : storeWF s = true) (rn : String) :
    storeWF (deleteOne s rn) = true := by
  induction s with
  | nil => simp [deleteOne, storeWF]
  | cons lock rest ih =>
      obtain ⟨h1, h2⟩ := storeWF_cons.mp h
      simp only [deleteOne]
      split
      · exact h2
      · exact storeWF_cons.mpr ⟨findOne_none_deleteOne h1, ih h2⟩

theorem findOne_deleteOne_self {s : Store} (h : storeWF s = true) (rn : String) :
    findOne (deleteOne s rn) rn = none := by
  induction s with
  | nil => simp [deleteOne, findOne]
  | cons lock rest ih =>
      obtain ⟨h1, h2⟩ := storeWF_cons.mp h
      simp only [deleteOne]
      by_cases hc : lock.resource_name = rn
      · rw [if_pos hc, ← hc]
        exact h1
      · rw [if_neg hc]
        simp only [findOne]
        rw [if_neg hc]
        exact ih h2

theorem storeWF_append_single {s : Store} {rec : LockRecord}
    (hwf : storeWF s = true) (hfresh : findOne s rec.resource_name = none) :
    storeWF (s ++ [rec]) = true := by
  induction s with
  | nil => simp [storeWF, findOne]
  | cons lock rest ih =>
      obtain ⟨h1, h2⟩ := storeWF_cons.mp hwf
      simp only [findOne] at hfresh
      split at hfresh
      · exact absurd hfresh (by simp)
      · refine List.cons_append lock rest [rec] ▸ storeWF_cons.mpr ⟨?_, ih h2 hfresh⟩
        rw [findOne_append_none h1]
        simp only [findOne]
        rw [if_neg]
        intro hc
        simp_all

theorem findOne_unique {s : Store} {rn : String} {rec l : LockRecord}
    (hwf : storeWF s = true) (hfind : findOne s rn = some rec)
    (hl : l ∈ s) (hname : l.resource_name = rn) : l = rec := by
  induction s with
  | nil => simp at hl
  | cons lock rest ih =>
      obtain ⟨h1, h2⟩ := storeWF_cons.mp hwf
      simp only [findOne] at hfind
      rcases List.mem_cons.mp hl with rfl | hl2
      · rw [if_pos hname] at hfind
        exact Option.some_injective _ hfind
      · split at hfind
        · next heq =>
            exact absurd hname (heq ▸ not_mem_of_findOne_none h1 l hl2)
        · exact ih h2 hfind hl2

/-! ### Lemmas about the listing loops -/

theorem allLockedGo_fst (now : Nat) (locks : List LockRecord) :
    ∀ (acc : List LockView) (st : Store),
    (allLockedGo now locks acc st).1 =
      acc ++ (locks.filter (fun l => !(isExpired l now))).map
        (fun l => ⟨l.resource_name, l.process_id_str, l.locked_at⟩) := by
  induction locks with
  | nil => intro acc st; simp [allLockedGo]
  | cons lock rest ih =>
      intro acc st
      simp only [allLockedGo, List.filter_cons]
      by_cases hc : isExpired lock now = true
      · rw [if_pos hc, ih]
        simp [hc]
      · rw [if_neg hc, ih]
        simp [hc]

theorem allLockedGo_snd_findOne (now : Nat) (locks : List LockRecord) {rn : String}
    (h : ∀ l ∈ locks, isExpired l now = true → l.resource_name ≠ rn) :
    ∀ (acc : List LockView) (st : Store),
    findOne (allLockedGo now locks acc st).2 rn = findOne st rn := by
  induction locks with
  | nil => intro acc st; simp [allLockedGo]
  | cons lock rest ih =>
      intro acc st
      simp only [allLockedGo]
      by_cases hc : isExpired lock now = true
      · rw [if_pos hc, ih (fun l hl => h l (by simp [hl]))]
        exact findOne_deleteOne_ne (h lock (by simp) hc)
      · rw [if_neg hc]
        exact ih (fun l hl => h l (by simp [hl])) _ _

theorem allLockedGo_snd_wf (now : Nat) (locks : List LockRecord) :
    ∀ (acc : List LockView) (st : Store), storeWF st = true →
    storeWF (allLockedGo now locks acc st).2 = true := by
  induction locks with
  | nil => intro acc st hwf; simpa [allLockedGo] using hwf
  | cons lock rest ih =>
      intro acc st hwf
      simp only [allLockedGo]
      by_cases hc : isExpired lock now = true
      · rw [if_pos hc]
        exact ih _ _ (storeWF_deleteOne hwf _)
      · rw [if_neg hc]
        exact ih _ _ hwf

theorem processLocksGo_fst (now : Nat) (locks : List LockRecord) :
    ∀ (acc : List ProcessLockView) (st : Store),
    (processLocksGo now locks acc st).1 =
      acc ++ (locks.filter (fun l => !(isExpired l now))).map
        (fun l => ⟨l.resource_name, l.locked_at⟩) := by
  induction locks with
  | nil => intro acc st; simp [processLocksGo]
  | cons lock rest ih =>
      intro acc st
      simp only [processLocksGo, List.filter_cons]
      by_cases hc : isExpired lock now = true
      · rw [if_pos hc, ih]
        simp [hc]
      · rw [if_neg hc, ih]
        simp [hc]

theorem processLocksGo_snd_findOne (now : Nat) (locks : List LockRecord)
    {rn : String}
    (h : ∀ l ∈ locks, isExpired l now = true → l.resource_name ≠ rn) :
    ∀ (acc : List ProcessLockView) (st : Store),
    findOne (processLocksGo now locks acc st).2 rn = findOne st rn := by
  induction locks with
  | nil => intro acc st; simp [processLocksGo]
  | cons lock rest ih =>
      intro acc st
      simp only [processLocksGo]
      by_cases hc : isExpired lock now = true
      · rw [if_pos hc, ih (fun l hl => h l (by simp [hl]))]
        exact findOne_deleteOne_ne (h lock (by simp) hc)
      · rw [if_neg hc]
        exact ih (fun l hl => h l (by simp [hl])) _ _

theorem processLocksGo_snd_wf (now : Nat) (locks : List LockRecord) :
    ∀ (acc : List ProcessLockView) (st : Store), storeWF st = true →
    storeWF (processLocksGo now locks acc st).2 = true := by
  induction locks with
  | nil => intro acc st hwf; simpa [processLocksGo] using hwf
  | cons lock rest ih =>
      intro acc st hwf
      simp only [processLocksGo]
      by_cases hc : isExpired lock now = true
      · rw [if_pos hc]
        exact ih _ _ (storeWF_deleteOne hwf _)
      · rw [if_neg hc]
        exact ih _ _ hwf

/-! ### Traces of requests -/

/-- A client request, tagged with the server time at which it is handled. -/
inductive Op where
  | acquire (now : Nat) (resource_name process_id_str : String)
      (ttl_seconds : Option Nat) (race : Option LockRecord)
  | release (resource_name process_id_str : String)
  | status (now : Nat) (resource_name : String)
  | allLocked (now : Nat)
  | processLocks (now : Nat) (process_id_str : String)
deriving DecidableEq

/-- The store after one request is handled. -/
def applyOp (s : Store) : Op → Store
  | .acquire now rn pid ttl race => (acquireOp s now rn pid ttl race).2
  | .release rn pid => (releaseOp s rn pid).2
  | .status now rn => (statusOp s now rn).2
  | .allLocked now => (allLockedOp s now).2
  | .processLocks now pid => (processLocksOp s now pid).2

/-- The store after a sequence of requests is handled. -/
def applyOps (s : Store) : List Op → Store
  | [] => s
  | op :: rest => applyOps (applyOp s op) rest

/-- Predicate `freesLease rec op` holds exactly when `op` can remove the stored lease
`rec`: a release of the resource by the holder of the lease, or an operation that
observes the lease expired at its time. -/
def freesLease (rec : LockRecord) : Op → Bool
  | .acquire now rn _ _ _ => rn == rec.resource_name && isExpired rec now
  | .release rn pid => rn == rec.resource_name && pid == rec.process_id_str
  | .status now rn => rn == rec.resource_name && isExpired rec now
  | .allLocked now => isExpired rec now
  | .processLocks now pid => pid == rec.process_id_str && isExpired rec now

/-! ### Preservation of a lease that no request frees -/

theorem raceStep_wf {s1 : Store} (race : Option LockRecord)
    (hwf : storeWF s1 = true) : storeWF (raceStep s1 race) = true := by
  cases race with
  | none => exact hwf
  | some rrec =>
      simp only [raceStep]
      by_cases hr : (findOne s1 rrec.resource_name).isSome = true
      · rw [if_pos hr]
        exact hwf
      · rw [if_neg hr]
        exact storeWF_append_single hwf (Option.not_isSome_iff_eq_none.mp hr)

theorem raceStep_findOne_some {s1 : Store} {rn : String} {rec : LockRecord}
    (race : Option LockRecord) (hfind : findOne s1 rn = some rec) :
    findOne (raceStep s1 race) rn = some rec := by
  cases race with
  | none => exact hfind
  | some rrec =>
      simp only [raceStep]
      by_cases hr : (findOne s1 rrec.resource_name).isSome = true
      · rw [if_pos hr]
        exact hfind
      · rw [if_neg hr]
        exact findOne_append_some hfind _

theorem acquireInsert_preserves {s1 : Store} {rec : LockRecord}
    (now : Nat) (rn pid : String) (ttl : Option Nat) (race : Option LockRecord)
    (hwf : storeWF s1 = true) (hfind : findOne s1 rec.resource_name = some rec) :
    storeWF (acquireInsert s1 now rn pid ttl race).2 = true ∧
    findOne (acquireInsert s1 now rn pid ttl race).2 rec.resource_name = some rec := by
  have hwf2 : storeWF (raceStep s1 race) = true := raceStep_wf race hwf
  have hfind2 : findOne (raceStep s1 race) rec.resource_name = some rec :=
    raceStep_findOne_some race hfind
  simp only [acquireInsert]
  cases hfo : findOne (raceStep s1 race) rn with
  | some existingLock => exact ⟨hwf2, hfind2⟩
  | none => exact ⟨storeWF_append_single hwf2 hfo, findOne_append_some hfind2 _⟩

theorem applyOp_preserves {st : Store} {rec : LockRecord} {op : Op}
    (hwf : storeWF st = true)
    (hfind : findOne st rec.resource_name = some rec)
    (hfree : freesLease rec op = false) :
    storeWF (applyOp st op) = true ∧
    findOne (applyOp st op) rec.resource_name = some rec := by
  cases op with
  | acquire now rn pid ttl race =>
      simp only [freesLease, Bool.and_eq_false_iff, beq_eq_false_iff_ne, ne_eq] at hfree
      by_cases hv : rn = "" ∨ pid = ""
      · simp only [applyOp, acquireOp, if_pos hv]
        exact ⟨hwf, hfind⟩
      · by_cases hrn : rn = rec.resource_name
        · subst hrn
          have hexp : ¬ isExpired rec now = true := by
            rcases hfree with h | h
            · exact absurd rfl h
            · simp [h]
          simp only [applyOp, acquireOp, if_neg hv, hfind]
          rw [if_neg hexp]
          exact ⟨hwf, hfind⟩
        · cases hfo : findOne st rn with
          | none =>
              simp only [applyOp, acquireOp, if_neg hv, hfo]
              exact acquireInsert_preserves now rn pid ttl race hwf hfind
          | some existingLock =>
              by_cases hexp : isExpired existingLock now = true
              · simp only [applyOp, acquireOp, if_neg hv, hfo]
                rw [if_pos hexp]
                exact acquireInsert_preserves now rn pid ttl race
                  (storeWF_deleteOne hwf rn)
                  ((findOne_deleteOne_ne hrn).trans hfind)
              · simp only [applyOp, acquireOp, if_neg hv, hfo]
                rw [if_neg hexp]
                exact ⟨hwf, hfind⟩
  | release rn pid =>
      simp only [freesLease, Bool.and_eq_false_iff, beq_eq_false_iff_ne, ne_eq] at hfree
      by_cases hv : rn = "" ∨ pid = ""
      · simp only [applyOp, releaseOp, if_pos hv]
        exact ⟨hwf, hfind⟩
      · by_cases hrn : rn = rec.resource_name
        · subst hrn
          have hpid : rec.process_id_str ≠ pid := by
            rcases hfree with h | h
            · exact absurd rfl h
            · exact fun hc => h hc.symm
          simp only [applyOp, releaseOp, if_neg hv, hfind]
          rw [if_pos hpid]
          exact ⟨hwf, hfind⟩
        · cases hfo : findOne st rn with
          | none =>
              simp only [applyOp, releaseOp, if_neg hv, hfo]
              exact ⟨hwf, hfind⟩
          | some existingLock =>
              by_cases hpid : existingLock.process_id_str ≠ pid
              · simp only [applyOp, releaseOp, if_neg hv, hfo]
                rw [if_pos hpid]
                exact ⟨hwf, hfind⟩
              · simp only [applyOp, releaseOp, if_neg hv, hfo]
                rw [if_neg hpid]
                exact ⟨storeWF_deleteOne hwf rn,
                  (findOne_deleteOne_ne hrn).trans hfind⟩
  | status now rn =>
      simp only [freesLease, Bool.and_eq_false_iff, beq_eq_false_iff_ne, ne_eq] at hfree
      by_cases hrn : rn = rec.resource_name
      · subst hrn
        have hexp : ¬ isExpired rec now = true := by
          rcases hfree with h | h
          · exact absurd rfl h
          · simp [h]
        simp only [applyOp, statusOp, hfind]
        rw [if_neg hexp]
        exact ⟨hwf, hfind⟩
      · cases hfo : findOne st rn with
        | none =>
            simp only [applyOp, statusOp, hfo]
            exact ⟨hwf, hfind⟩
        | some lock =>
            by_cases hexp : isExpired lock now = true
            · simp only [applyOp, statusOp, hfo]
              rw [if_pos hexp]
              exact ⟨storeWF_deleteOne hwf rn,
                (findOne_deleteOne_ne hrn).trans hfind⟩
            · simp only [applyOp, statusOp, hfo]
              rw [if_neg hexp]
              exact ⟨hwf, hfind⟩
  | allLocked now =>
      simp only [freesLease] at hfree
      simp only [applyOp, allLockedOp]
      have hsnap : ∀ l ∈ st, isExpired l now = true →
          l.resource_name ≠ rec.resource_name := by
        intro l hl hexp hname
        have : l = rec := findOne_unique hwf hfind hl hname
        rw [this] at hexp
        exact absurd hexp (by simp [hfree])
      exact ⟨allLockedGo_snd_wf now st [] st hwf,
        (allLockedGo_snd_findOne now st hsnap [] st).trans hfind⟩
  | processLocks now pid =>
      simp only [freesLease, Bool.and_eq_false_iff, beq_eq_false_iff_ne, ne_eq] at hfree
      simp only [applyOp, processLocksOp]
      have hsnap : ∀ l ∈ st.filter (fun l => l.process_id_str = pid),
          isExpired l now = true → l.resource_name ≠ rec.resource_name := by
        intro l hl hexp hname
        have hmem := List.mem_filter.mp hl
        have hleq : l = rec := findOne_unique hwf hfind hmem.1 hname
        rcases hfree with h | h
        · refine h ?_
          have h2 := hmem.2
          rw [hleq] at h2
          exact (of_decide_eq_true h2).symm
        · rw [hleq] at hexp
          simp [hexp] at h
      exact ⟨processLocksGo_snd_wf now _ [] st hwf,
        (processLocksGo_snd_findOne now _ hsnap [] st).trans hfind⟩

theorem applyOps_preserves {st : Store} {rec : LockRecord} {ops : List Op}
    (hwf : storeWF st = true)
    (hfind : findOne st rec.resource_name = some rec)
    (hfree : ∀ op ∈ ops, freesLease rec op = false) :
    storeWF (applyOps st ops) = true ∧
    findOne (applyOps st ops) rec.resource_name = some rec := by
  induction ops generalizing st with
  | nil => exact ⟨hwf, hfind⟩
  | cons op rest ih =>
      obtain ⟨hwf2, hfind2⟩ :=
        applyOp_preserves hwf hfind (hfree op (by simp))
      exact ih hwf2 hfind2 (fun o ho => hfree o (by simp [ho]))

/-! ### Shape of a successful acquire -/

theorem acquireInsert_acquired {s1 : Store} {now : Nat} {rn pid rn2 pid2 : String}
    {ttl : Option Nat} {race : Option LockRecord} {s2 : Store}
    (hwf : storeWF s1 = true)
    (h : acquireInsert s1 now rn pid ttl race = (.acquired rn2 pid2, s2)) :
    storeWF s2 = true ∧
    findOne s2 rn = some ⟨rn, pid, now, jsExpiresAt ttl now⟩ := by
  have hwf1 : storeWF (raceStep s1 race) = true := raceStep_wf race hwf
  cases hfo : findOne (raceStep s1 race) rn with
  | some existingLock =>
      simp only [acquireInsert, hfo, Prod.mk.injEq] at h
      exact absurd h.1 (by simp)
  | none =>
      simp only [acquireInsert, hfo, Prod.mk.injEq] at h
      obtain ⟨-, hs2⟩ := h
      subst hs2
      refine ⟨storeWF_append_single hwf1 hfo, ?_⟩
      rw [findOne_append_none hfo]
      simp [findOne]

theorem acquireOp_acquired {s : Store} {now : Nat} {rn pid rn2 pid2 : String}
    {ttl : Option Nat} {race : Option LockRecord} {s2 : Store}
    (hwf : storeWF s = true)
    (h : acquireOp s now rn pid ttl race = (.acquired rn2 pid2, s2)) :
    rn ≠ "" ∧ pid ≠ "" ∧ storeWF s2 = true ∧
    findOne s2 rn = some ⟨rn, pid, now, jsExpiresAt ttl now⟩ := by
  by_cases hv : rn = "" ∨ pid = ""
  · simp only [acquireOp, if_pos hv, Prod.mk.injEq] at h
    exact absurd h.1 (by simp)
  · obtain ⟨hrn, hpid⟩ : ¬ rn = "" ∧ ¬ pid = "" := not_or.mp hv
    refine ⟨hrn, hpid, ?_⟩
    cases hfo : findOne s rn with
    | none =>
        simp only [acquireOp, if_neg hv, hfo] at h
        exact acquireInsert_acquired hwf h
    | some existingLock =>
        by_cases hexp : isExpired existingLock now = true
        · simp only [acquireOp, if_neg hv, hfo] at h
          rw [if_pos hexp] at h
          exact acquireInsert_acquired (storeWF_deleteOne hwf rn) h
        · simp only [acquireOp, if_neg hv, hfo] at h
          rw [if_neg hexp] at h
          exact absurd (Prod.mk.injEq .. ▸ h).1 (by simp)

/-! ### Claim theorems -/

/-- C1: once an `Acquire` for resource `R` has returned `Acquired`, every
subsequent `Acquire` for `R` — after any sequence of requests none of which
releases the lease by its holder or observes it expired, and while the lease
is not expired — returns `Denied` with the original holder, never `Acquired`:
the per-resource state machine cannot enter LOCKED twice without passing
through UNLOCKED. -/
theorem mutual_exclusion_per_resource
    (s : Store) (now : Nat) (R A : String) (ttl : Option Nat) (s1 : Store)
    (hwf : storeWF s = true)
    (hacq : acquireOp s now R A ttl none = (.acquired R A, s1))
    (ops : List Op)
    (hops : ∀ op ∈ ops, freesLease ⟨R, A, now, jsExpiresAt ttl now⟩ op = false)
    (now2 : Nat) (B : String) (ttl2 : Option Nat) (race : Option LockRecord)
    (hlive : isExpired ⟨R, A, now, jsExpiresAt ttl now⟩ now2 = false)
    (hB : B ≠ "") :
    (acquireOp (applyOps s1 ops) now2 R B ttl2 race).1 =
      AcquireResult.denied R A := by
  obtain ⟨hR, -, hwf1, hfind1⟩ := acquireOp_acquired hwf hacq
  obtain ⟨hwf2, hfind2⟩ := applyOps_preserves hwf1 hfind1 hops
  have hv : ¬ (R = "" ∨ B = "") := by
    rintro (h | h)
    · exact hR h
    · exact hB h
  simp only [acquireOp, if_neg hv, hfind2]
  rw [if_neg (by simp [hlive])]

/-- Witness for `mutual_exclusion_per_resource` at concrete inputs. -/
theorem mutual_exclusion_per_resource_witness :
    storeWF [] = true ∧
    acquireOp [] 0 "r" "a" none none =
      (.acquired "r" "a", [⟨"r", "a", 0, none⟩]) ∧
    (∀ op ∈ [Op.status 5 "r", Op.release "r" "b"],
      freesLease ⟨"r", "a", 0, jsExpiresAt none 0⟩ op = false) ∧
    isExpired ⟨"r", "a", 0, jsExpiresAt none 0⟩ 100 = false ∧
    ("b" : String) ≠ "" ∧
    (acquireOp (applyOps [⟨"r", "a", 0, none⟩] [Op.status 5 "r", Op.release "r" "b"])
        100 "r" "b" (some 7) none).1 = AcquireResult.denied "r" "a" :=
  ⟨by decide, by decide, by decide, by decide, by decide,
   mutual_exclusion_per_resource [] 0 "r" "a" none [⟨"r", "a", 0, none⟩]
     (by decide) (by decide) [Op.status 5 "r", Op.release "r" "b"] (by decide)
     100 "b" (some 7) none (by decide) (by decide)⟩

/-- C5: `Acquire` and `Release` fail with `InvalidArgument` (HTTP 400) when
`resource_name` or `process_id_str` is empty, and the store is returned
unchanged — no record is inserted, deleted or modified. -/
theorem validation_rejects_empty (s : Store) (now : Nat) (rn pid : String)
    (ttl : Option Nat) (race : Option LockRecord) (h : rn = "" ∨ pid = "") :
    acquireOp s now rn pid ttl race = (.invalidArgument, s) ∧
    releaseOp s rn pid = (.invalidArgument, s) := by
  constructor
  · simp only [acquireOp, if_pos h]
  · simp only [releaseOp, if_pos h]

/-- Witness for `validation_rejects_empty`. -/
theorem validation_rejects_empty_witness :
    (("" : String) = "" ∨ ("p" : String) = "") ∧
    acquireOp [⟨"x", "q", 3, some 9⟩] 4 "" "p" (some 2) none =
      (.invalidArgument, [⟨"x", "q", 3, some 9⟩]) ∧
    releaseOp [⟨"x", "q", 3, some 9⟩] "" "p" =
      (.invalidArgument, [⟨"x", "q", 3, some 9⟩]) :=
  ⟨by decide,
   (validation_rejects_empty [⟨"x", "q", 3, some 9⟩] 4 "" "p" (some 2) none
     (by decide)).1,
   (validation_rejects_empty [⟨"x", "q", 3, some 9⟩] 4 "" "p" (some 2) none
     (by decide)).2⟩

/-- C6: when resource `R` holds a live (unexpired) lease `rec`, any acquire
attempt for `R` — by any process and with any concurrent insert — is denied
with `locked_by` the current holder, and the store is completely unchanged. -/
theorem live_lock_denies_acquire (s : Store) (now : Nat) (R pid2 : String)
    (rec : LockRecord) (ttl : Option Nat) (race : Option LockRecord)
    (hfind : findOne s R = some rec) (hlive : isExpired rec now = false)
    (hR : R ≠ "") (hpid : pid2 ≠ "") :
    acquireOp s now R pid2 ttl race = (.denied R rec.process_id_str, s) := by
  have hv : ¬ (R = "" ∨ pid2 = "") := by
    rintro (h | h)
    · exact hR h
    · exact hpid h
  simp only [acquireOp, if_neg hv, hfind]
  rw [if_neg (by simp [hlive])]

/-- Witness for `live_lock_denies_acquire`. -/
theorem live_lock_denies_acquire_witness :
    findOne [⟨"r", "a", 1, some 50⟩] "r" = some ⟨"r", "a", 1, some 50⟩ ∧
    isExpired ⟨"r", "a", 1, some 50⟩ 20 = false ∧
    ("r" : String) ≠ "" ∧ ("a" : String) ≠ "" ∧
    acquireOp [⟨"r", "a", 1, some 50⟩] 20 "r" "a" (some 3)
        (some ⟨"z", "c", 20, none⟩) =
      (.denied "r" "a", [⟨"r", "a", 1, some 50⟩]) :=
  ⟨by decide, by decide, by decide, by decide,
   live_lock_denies_acquire [⟨"r", "a", 1, some 50⟩] 20 "r" "a"
     ⟨"r", "a", 1, some 50⟩ (some 3) (some ⟨"z", "c", 20, none⟩)
     (by decide) (by decide) (by decide) (by decide)⟩

/-- C4: a release by a non-holder answers `Forbidden`
(`not_locked_by_process`, HTTP 403) and performs no store mutation, a
subsequent status query still reports the resource locked by the live
holder of the live lease, and a release when no record exists answers `NotLocked`
(`resource_not_locked`, HTTP 404). -/
theorem release_wrong_holder (s : Store) (now : Nat) (R A B : String)
    (rec : LockRecord)
    (hR : R ≠ "") (hA : A ≠ "") (hB : B ≠ "")
    (hfind : findOne s R = some rec) (hholder : rec.process_id_str = A)
    (hne : B ≠ A) (hlive : isExpired rec now = false) :
    releaseOp s R B = (.notLockedByProcess R, s) ∧
    (statusOp s now R).1 = .locked R A rec.locked_at ∧
    ∀ s2 : Store, findOne s2 R = none →
      releaseOp s2 R A = (.resourceNotLocked R, s2) := by
  refine ⟨?_, ?_, ?_⟩
  · have hv : ¬ (R = "" ∨ B = "") := by
      rintro (h | h)
      · exact hR h
      · exact hB h
    simp only [releaseOp, if_neg hv, hfind]
    rw [if_pos (show rec.process_id_str ≠ B by
      rw [hholder]; exact fun h => hne h.symm)]
  · simp only [statusOp, hfind]
    rw [if_neg (by simp [hlive])]
    simp [hholder]
  · intro s2 h2
    have hv : ¬ (R = "" ∨ A = "") := by
      rintro (h | h)
      · exact hR h
      · exact hA h
    simp only [releaseOp, if_neg hv, h2]

/-- Witness for `release_wrong_holder`. -/
theorem release_wrong_holder_witness :
    (("r" : String) ≠ "" ∧ ("a" : String) ≠ "" ∧ ("b" : String) ≠ "" ∧
      findOne [⟨"r", "a", 2, none⟩] "r" = some ⟨"r", "a", 2, none⟩ ∧
      (⟨"r", "a", 2, none⟩ : LockRecord).process_id_str = "a" ∧
      ("b" : String) ≠ "a" ∧ isExpired ⟨"r", "a", 2, none⟩ 9 = false) ∧
    releaseOp [⟨"r", "a", 2, none⟩] "r" "b" =
      (.notLockedByProcess "r", [⟨"r", "a", 2, none⟩]) ∧
    (statusOp [⟨"r", "a", 2, none⟩] 9 "r").1 = .locked "r" "a" 2 ∧
    releaseOp [] "r" "a" = (.resourceNotLocked "r", []) := by
  have h := release_wrong_holder [⟨"r", "a", 2, none⟩] 9 "r" "a" "b"
    ⟨"r", "a", 2, none⟩ (by decide) (by decide) (by decide) (by decide)
    (by decide) (by decide) (by decide)
  exact ⟨⟨by decide, by decide, by decide, by decide, by decide, by decide,
    by decide⟩, h.1, h.2.1, h.2.2 [] (by decide)⟩

theorem acquireInsert_race_denied {s1 : Store} {now : Nat} {R pid : String}
    {ttl : Option Nat} {rrec : LockRecord}
    (hnone : findOne s1 R = none) (hname : rrec.resource_name = R) :
    acquireInsert s1 now R pid ttl (some rrec) =
      (.denied R rrec.process_id_str, s1 ++ [rrec]) := by
  have h2 : findOne (s1 ++ [rrec]) R = some rrec := by
    rw [findOne_append_none hnone]
    simp [findOne, hname]
  simp only [acquireInsert, raceStep, hname, hnone, Option.isSome_none,
    Bool.false_eq_true, if_false, h2]

theorem acquireInsert_no_race {s1 : Store} {now : Nat} {R pid : String}
    {ttl : Option Nat} (hnone : findOne s1 R = none) :
    acquireInsert s1 now R pid ttl none =
      (.acquired R pid, s1 ++ [⟨R, pid, now, jsExpiresAt ttl now⟩]) := by
  simp only [acquireInsert, raceStep, hnone]

/-- C7: when no live record blocks the acquire but a concurrent acquirer
inserts a record for the same resource between the read and the `save()`,
the duplicate-key (`AlreadyExists`) path re-reads the record and answers
`Denied` with the holder of that record — never a server error; without the
concurrent insert the `save()` succeeds and the operation answers
`Acquired`. -/
theorem duplicate_key_race_denied (s : Store) (now : Nat) (R pid : String)
    (ttl : Option Nat) (rrec : LockRecord)
    (hwf : storeWF s = true) (hR : R ≠ "") (hpid : pid ≠ "")
    (hgone : ∀ rec, findOne s R = some rec → isExpired rec now = true)
    (hname : rrec.resource_name = R) :
    (acquireOp s now R pid ttl (some rrec)).1 = .denied R rrec.process_id_str ∧
    (acquireOp s now R pid ttl (some rrec)).1 ≠ .serverError ∧
    (acquireOp s now R pid ttl none).1 = .acquired R pid := by
  have hv : ¬ (R = "" ∨ pid = "") := by
    rintro (h | h)
    · exact hR h
    · exact hpid h
  cases hfo : findOne s R with
  | none =>
      simp only [acquireOp, if_neg hv, hfo, acquireInsert_race_denied hfo hname,
        acquireInsert_no_race hfo]
      simp
  | some rec =>
      have hexp := hgone rec hfo
      have hdel : findOne (deleteOne s R) R = none := findOne_deleteOne_self hwf R
      simp only [acquireOp, if_neg hv, hfo, if_pos hexp,
        acquireInsert_race_denied hdel hname, acquireInsert_no_race hdel]
      simp

/-- Witness for `duplicate_key_race_denied`. -/
theorem duplicate_key_race_denied_witness :
    (storeWF [⟨"r", "a", 0, some 3⟩] = true ∧ ("r" : String) ≠ "" ∧
      ("b" : String) ≠ "" ∧
      (∀ rec, findOne [⟨"r", "a", 0, some 3⟩] "r" = some rec →
        isExpired rec 10 = true) ∧
      (⟨"r", "c", 10, none⟩ : LockRecord).resource_name = "r") ∧
    (acquireOp [⟨"r", "a", 0, some 3⟩] 10 "r" "b" (some 5)
        (some ⟨"r", "c", 10, none⟩)).1 = .denied "r" "c" ∧
    (acquireOp [⟨"r", "a", 0, some 3⟩] 10 "r" "b" (some 5)
        (some ⟨"r", "c", 10, none⟩)).1 ≠ .serverError ∧
    (acquireOp [⟨"r", "a", 0, some 3⟩] 10 "r" "b" (some 5) none).1 =
      .acquired "r" "b" := by
  have h := duplicate_key_race_denied [⟨"r", "a", 0, some 3⟩] 10 "r" "b"
    (some 5) ⟨"r", "c", 10, none⟩ (by decide) (by decide) (by decide)
    (by decide) (by decide)
  exact ⟨⟨by decide, by decide, by decide, by decide, by decide⟩,
    h.1, h.2.1, h.2.2⟩

/-- C8: a lease acquired with `ttl_seconds` absent never expires: after any
sequence of requests containing no release of resource `R` by holder `A`,
the status query at any later time still reports `R` locked by `A` with the
original acquisition timestamp. -/
theorem no_ttl_never_expires
    (s : Store) (now : Nat) (R A : String) (s1 : Store)
    (hwf : storeWF s = true)
    (hacq : acquireOp s now R A none none = (.acquired R A, s1))
    (ops : List Op) (hops : ∀ op ∈ ops, op ≠ Op.release R A)
    (now2 : Nat) :
    (statusOp (applyOps s1 ops) now2 R).1 = .locked R A now := by
  obtain ⟨hR, hA, hwf1, hfind1⟩ := acquireOp_acquired hwf hacq
  have hfree : ∀ op ∈ ops,
      freesLease ⟨R, A, now, jsExpiresAt none now⟩ op = false := by
    intro op hop
    cases op with
    | acquire now3 rn pid ttl race => simp [freesLease, isExpired, jsExpiresAt]
    | release rn pid =>
        by_cases h1 : rn = R
        · by_cases h2 : pid = A
          · subst h1
            subst h2
            exact absurd rfl (hops _ hop)
          · simp [freesLease, h2]
        · simp [freesLease, h1]
    | status now3 rn => simp [freesLease, isExpired, jsExpiresAt]
    | allLocked now3 => simp [freesLease, isExpired, jsExpiresAt]
    | processLocks now3 pid => simp [freesLease, isExpired, jsExpiresAt]
  obtain ⟨hwf2, hfind2⟩ := applyOps_preserves hwf1 hfind1 hfree
  simp only [statusOp, hfind2]
  rw [if_neg (by simp [isExpired, jsExpiresAt])]

/-- Witness for `no_ttl_never_expires`. -/
theorem no_ttl_never_expires_witness :
    storeWF [] = true ∧
    acquireOp [] 3 "r" "a" none none =
      (.acquired "r" "a", [⟨"r", "a", 3, none⟩]) ∧
    (∀ op ∈ [Op.acquire 4 "r" "b" (some 1) none, Op.allLocked 5],
      op ≠ Op.release "r" "a") ∧
    (statusOp (applyOps [⟨"r", "a", 3, none⟩]
        [Op.acquire 4 "r" "b" (some 1) none, Op.allLocked 5])
        1000000000 "r").1 = .locked "r" "a" 3 :=
  ⟨by decide, by decide, by decide,
   no_ttl_never_expires [] 3 "r" "a" [⟨"r", "a", 3, none⟩] (by decide)
     (by decide) [Op.acquire 4 "r" "b" (some 1) none, Op.allLocked 5]
     (by decide) 1000000000⟩

/-! ### The liveness rule the code actually implements -/

/-- A stored lease is live for the code iff `expires_at` is absent or
`expires_at` is at least `now`: the code tests `expires_at < now`, so a
lease whose `expires_at` equals `now` exactly is still live. -/
def liveAmended (rec : LockRecord) (now : Nat) : Bool :=
  match rec.expires_at with
  | none => true
  | some e => decide (now ≤ e)

theorem isExpired_eq_not_liveAmended (rec : LockRecord) (now : Nat) :
    isExpired rec now = !liveAmended rec now := by
  cases h : rec.expires_at with
  | none => simp [isExpired, liveAmended, h]
  | some e =>
      by_cases hle : now ≤ e
      · simp [isExpired, liveAmended, h, hle, Nat.not_lt.mpr hle]
      · have hlt : e < now := Nat.lt_of_not_le hle
        simp [isExpired, liveAmended, h, hle, hlt]

/-- C2 counterexample: a lease whose `expires_at` equals `now` exactly IS
visible — the status query reports the resource locked — contradicting the
claim that such a lease is not live and must not be visible to any read
operation. -/
theorem liveness_boundary_counterexample :
    (⟨"r", "p", 0, some 5⟩ : LockRecord).expires_at = some 5 ∧
    (statusOp [⟨"r", "p", 0, some 5⟩] 5 "r").1 = .locked "r" "p" 0 ∧
    (statusOp [⟨"r", "p", 0, some 5⟩] 5 "r").1 ≠ .unlocked "r" ∧
    (allLockedOp [⟨"r", "p", 0, some 5⟩] 5).1 = [⟨"r", "p", 0⟩] := by decide

/-- C2 amended: a stored lease is treated as live by the acquire, status,
list-all and list-by-holder operations iff `expires_at` is absent or
`expires_at` is greater than **or equal to** `now` (the code expires only
records with `expires_at < now`): the resource is reported locked / denied /
listed exactly when the lease is live in this sense. -/
theorem liveness_rule (s : Store) (now : Nat) (R : String) (rec : LockRecord)
    (hwf : storeWF s = true) (hfind : findOne s R = some rec)
    (hR : R ≠ "") (pid2 : String) (hpid : pid2 ≠ "") (ttl2 : Option Nat) :
    ((statusOp s now R).1 = .locked R rec.process_id_str rec.locked_at ↔
      liveAmended rec now = true) ∧
    ((statusOp s now R).1 = .unlocked R ↔ liveAmended rec now = false) ∧
    ((acquireOp s now R pid2 ttl2 none).1 = .denied R rec.process_id_str ↔
      liveAmended rec now = true) ∧
    ((∃ v ∈ (allLockedOp s now).1, v.resource_name = R) ↔
      liveAmended rec now = true) ∧
    ((∃ v ∈ (processLocksOp s now rec.process_id_str).1, v.resource_name = R) ↔
      liveAmended rec now = true) := by
  obtain ⟨hmem, hname⟩ := findOne_mem hfind
  have hv : ¬ (R = "" ∨ pid2 = "") := by
    rintro (h | h)
    · exact hR h
    · exact hpid h
  cases hl : liveAmended rec now with
  | true =>
      have hisexp : isExpired rec now = false := by
        rw [isExpired_eq_not_liveAmended, hl]
        rfl
      have hne : ¬ isExpired rec now = true := by simp [hisexp]
      refine ⟨?_, ?_, ?_, ?_, ?_⟩
      · refine iff_of_true ?_ rfl
        simp only [statusOp, hfind]
        rw [if_neg hne]
      · refine iff_of_false ?_ (by simp)
        simp only [statusOp, hfind]
        rw [if_neg hne]
        simp
      · refine iff_of_true ?_ rfl
        simp only [acquireOp, if_neg hv, hfind]
        rw [if_neg hne]
      · refine iff_of_true ?_ rfl
        refine ⟨⟨rec.resource_name, rec.process_id_str, rec.locked_at⟩, ?_, hname⟩
        simp only [allLockedOp, allLockedGo_fst, List.nil_append]
        exact List.mem_map_of_mem _
          (List.mem_filter.mpr ⟨hmem, by simp [hisexp]⟩)
      · refine iff_of_true ?_ rfl
        refine ⟨⟨rec.resource_name, rec.locked_at⟩, ?_, hname⟩
        simp only [processLocksOp, processLocksGo_fst, List.nil_append]
        refine List.mem_map_of_mem _ (List.mem_filter.mpr ⟨?_, by simp [hisexp]⟩)
        exact List.mem_filter.mpr ⟨hmem, by simp⟩
  | false =>
      have hisexp : isExpired rec now = true := by
        rw [isExpired_eq_not_liveAmended, hl]
        rfl
      refine ⟨?_, ?_, ?_, ?_, ?_⟩
      · refine iff_of_false ?_ (by simp)
        simp only [statusOp, hfind]
        rw [if_pos hisexp]
        simp
      · refine iff_of_true ?_ rfl
        simp only [statusOp, hfind]
        rw [if_pos hisexp]
      · refine iff_of_false ?_ (by simp)
        simp only [acquireOp, if_neg hv, hfind]
        rw [if_pos hisexp,
          acquireInsert_no_race (findOne_deleteOne_self hwf R)]
        simp
      · refine iff_of_false ?_ (by simp)
        rintro ⟨v, hv2, hvr⟩
        simp only [allLockedOp, allLockedGo_fst, List.nil_append,
          List.mem_map] at hv2
        obtain ⟨l, hlf, rfl⟩ := hv2
        obtain ⟨hls, hlive⟩ := List.mem_filter.mp hlf
        have hlr : l = rec := findOne_unique hwf hfind hls hvr
        rw [hlr, hisexp] at hlive
        simp at hlive
      · refine iff_of_false ?_ (by simp)
        rintro ⟨v, hv2, hvr⟩
        simp only [processLocksOp, processLocksGo_fst, List.nil_append,
          List.mem_map] at hv2
        obtain ⟨l, hlf, rfl⟩ := hv2
        obtain ⟨hls, hlive⟩ := List.mem_filter.mp hlf
        have hls2 : l ∈ s := (List.mem_filter.mp hls).1
        have hlr : l = rec := findOne_unique hwf hfind hls2 hvr
        rw [hlr, hisexp] at hlive
        simp at hlive

/-- Witness for `liveness_rule` at the boundary `expires_at = now`. -/
theorem liveness_rule_witness :
    (storeWF [⟨"r", "p", 3, some 10⟩] = true ∧
      findOne [⟨"r", "p", 3, some 10⟩] "r" = some ⟨"r", "p", 3, some 10⟩ ∧
      ("r" : String) ≠ "" ∧ ("q" : String) ≠ "") ∧
    (((statusOp [⟨"r", "p", 3, some 10⟩] 10 "r").1 = .locked "r" "p" 3 ↔
        liveAmended ⟨"r", "p", 3, some 10⟩ 10 = true) ∧
      ((statusOp [⟨"r", "p", 3, some 10⟩] 10 "r").1 = .unlocked "r" ↔
        liveAmended ⟨"r", "p", 3, some 10⟩ 10 = false) ∧
      ((acquireOp [⟨"r", "p", 3, some 10⟩] 10 "r" "q" none none).1 =
          .denied "r" "p" ↔
        liveAmended ⟨"r", "p", 3, some 10⟩ 10 = true) ∧
      ((∃ v ∈ (allLockedOp [⟨"r", "p", 3, some 10⟩] 10).1,
          v.resource_name = "r") ↔
        liveAmended ⟨"r", "p", 3, some 10⟩ 10 = true) ∧
      ((∃ v ∈ (processLocksOp [⟨"r", "p", 3, some 10⟩] 10 "p").1,
          v.resource_name = "r") ↔
        liveAmended ⟨"r", "p", 3, some 10⟩ 10 = true)) :=
  ⟨⟨by decide, by decide, by decide, by decide⟩,
   liveness_rule [⟨"r", "p", 3, some 10⟩] 10 "r" ⟨"r", "p", 3, some 10⟩
     (by decide) (by decide) (by decide) "q" (by decide) none⟩

/-- C3: the failing input for the claim.  `ttl_seconds ? … : null` treats
`ttl_seconds = 0` as falsy, so an acquire with ttl 0 stores
`expires_at = null`; the lease therefore never expires and the list-all
operation still returns it after an arbitrarily large clock advance, where
the claim (and spec §8) require the returned list not to contain the
resource. -/
theorem ttl_zero_lease_never_expires :
    (acquireOp [] 0 "r" "a" (some 0) none).1 = .acquired "r" "a" ∧
    (acquireOp [] 0 "r" "a" (some 0) none).2 = [⟨"r", "a", 0, none⟩] ∧
    (allLockedOp [⟨"r", "a", 0, none⟩] 1000000000).1 = [⟨"r", "a", 0⟩] ∧
    (statusOp [⟨"r", "a", 0, none⟩] 1000000000 "r").1 =
      .locked "r" "a" 0 := by decide

/-! ### Read operations with fault injection on the reclamation delete -/

/-- Outcome of a status read whose reclamation delete may fail: the
`await ResourceLock.deleteOne(…)` sits inside the try block of the handler, so a
store error thrown by it is caught by the `catch`, which answers HTTP 500. -/
inductive StatusOutcome where
  | ok (result : StatusResult)
  | serverError
deriving DecidableEq

/-- Handler of `GET /locks/status/:resource_name` with fault injection:
`deleteFails = true` makes the reclamation `deleteOne` of line 137 throw. -/
def statusOpF (s : Store) (now : Nat) (resource_name : String)
    (deleteFails : Bool) : StatusOutcome × Store :=
  match findOne s resource_name with
  | none => (.ok (.unlocked resource_name), s)
  | some lock =>
      if isExpired lock now then
        if deleteFails then (.serverError, s)
        else (.ok (.unlocked resource_name), deleteOne s resource_name)
      else (.ok (.locked resource_name lock.process_id_str lock.locked_at), s)

/-- Outcome of a listing read whose reclamation delete may fail. -/
inductive ListOutcome (α : Type) where
  | ok (views : List α)
  | serverError
deriving DecidableEq

/-- The loop of lines 162–173 with fault injection on the `deleteOne` of
line 165; the thrown error aborts the loop and reaches the `catch`. -/
def allLockedGoF (now : Nat) (deleteFails : Bool) (locks : List LockRecord)
    (validLocks : List LockView) (st : Store) : ListOutcome LockView × Store :=
  match locks with
  | [] => (.ok validLocks, st)
  | lock :: rest =>
      if isExpired lock now then
        if deleteFails then (.serverError, st)
        else allLockedGoF now deleteFails rest validLocks
          (deleteOne st lock.resource_name)
      else
        allLockedGoF now deleteFails rest
          (validLocks ++ [⟨lock.resource_name, lock.process_id_str,
            lock.locked_at⟩]) st

/-- Handler of `GET /locks/all-locked` with fault injection on reclamation deletes. -/
def allLockedOpF (s : Store) (now : Nat) (deleteFails : Bool) :
    ListOutcome LockView × Store :=
  allLockedGoF now deleteFails s [] s

/-- The loop of lines 190–200 with fault injection on the `deleteOne` of
line 193. -/
def processLocksGoF (now : Nat) (deleteFails : Bool) (locks : List LockRecord)
    (validLocks : List ProcessLockView) (st : Store) :
    ListOutcome ProcessLockView × Store :=
  match locks with
  | [] => (.ok validLocks, st)
  | lock :: rest =>
      if isExpired lock now then
        if deleteFails then (.serverError, st)
        else processLocksGoF now deleteFails rest validLocks
          (deleteOne st lock.resource_name)
      else
        processLocksGoF now deleteFails rest
          (validLocks ++ [⟨lock.resource_name, lock.locked_at⟩]) st

/-- Handler of `GET /locks/process/:process_id_str` with fault injection. -/
def processLocksOpF (s : Store) (now : Nat) (process_id_str : String)
    (deleteFails : Bool) : ListOutcome ProcessLockView × Store :=
  processLocksGoF now deleteFails
    (s.filter (fun l => l.process_id_str = process_id_str)) [] s

theorem allLockedGoF_serverError (now : Nat) (locks : List LockRecord)
    (h : ∃ l ∈ locks, isExpired l now = true) :
    ∀ (acc : List LockView) (st : Store),
    (allLockedGoF now true locks acc st).1 = .serverError := by
  induction locks with
  | nil => simp at h
  | cons lock rest ih =>
      intro acc st
      simp only [allLockedGoF]
      by_cases hc : isExpired lock now = true
      · rw [if_pos hc]
        simp
      · rw [if_neg hc]
        refine ih ?_ _ _
        rcases h with ⟨l, hl, hle⟩
        rcases List.mem_cons.mp hl with rfl | h2
        · exact absurd hle hc
        · exact ⟨l, h2, hle⟩

theorem processLocksGoF_serverError (now : Nat) (locks : List LockRecord)
    (h : ∃ l ∈ locks, isExpired l now = true) :
    ∀ (acc : List ProcessLockView) (st : Store),
    (processLocksGoF now true locks acc st).1 = .serverError := by
  induction locks with
  | nil => simp at h
  | cons lock rest ih =>
      intro acc st
      simp only [processLocksGoF]
      by_cases hc : isExpired lock now = true
      · rw [if_pos hc]
        simp
      · rw [if_neg hc]
        refine ih ?_ _ _
        rcases h with ⟨l, hl, hle⟩
        rcases List.mem_cons.mp hl with rfl | h2
        · exact absurd hle hc
        · exact ⟨l, h2, hle⟩

/-- C9 counterexample: with an expired lease in the store and a failing
reclamation delete, the status read does NOT report the resource unlocked —
it answers HTTP 500 — and the list-all read does not return the empty
listing either, contradicting the claim that the read still returns the
correct logical answer without failing. -/
theorem reclamation_failure_counterexample :
    (statusOpF [⟨"r", "p", 0, some 1⟩] 5 "r" true).1 = .serverError ∧
    (statusOpF [⟨"r", "p", 0, some 1⟩] 5 "r" true).1 ≠ .ok (.unlocked "r") ∧
    (allLockedOpF [⟨"r", "p", 0, some 1⟩] 5 true).1 = .serverError ∧
    (allLockedOpF [⟨"r", "p", 0, some 1⟩] 5 true).1 ≠ .ok [] := by decide

/-- C9 amended: when a read operation meets an expired lease and the
reclamation delete fails with a store error, the operation does not return
the logical answer: the error is caught by the catch block of the handler and
the whole caller-visible operation fails with HTTP 500. -/
theorem reclamation_failure_is_server_error (s : Store) (now : Nat)
    (R : String) (rec : LockRecord)
    (hfind : findOne s R = some rec) (hexp : isExpired rec now = true) :
    (statusOpF s now R true).1 = .serverError ∧
    (allLockedOpF s now true).1 = .serverError ∧
    (processLocksOpF s now rec.process_id_str true).1 = .serverError := by
  obtain ⟨hmem, hname⟩ := findOne_mem hfind
  refine ⟨?_, ?_, ?_⟩
  · simp only [statusOpF, hfind]
    rw [if_pos hexp]
    simp
  · exact allLockedGoF_serverError now s ⟨rec, hmem, hexp⟩ [] s
  · refine processLocksGoF_serverError now _ ⟨rec, ?_, hexp⟩ [] s
    exact List.mem_filter.mpr ⟨hmem, by simp⟩

/-- Witness for `reclamation_failure_is_server_error`. -/
theorem reclamation_failure_is_server_error_witness :
    (findOne [⟨"x", "q", 7, none⟩, ⟨"r", "p", 0, some 1⟩] "r" =
        some ⟨"r", "p", 0, some 1⟩ ∧
      isExpired ⟨"r", "p", 0, some 1⟩ 5 = true) ∧
    (statusOpF [⟨"x", "q", 7, none⟩, ⟨"r", "p", 0, some 1⟩] 5 "r" true).1 =
      .serverError ∧
    (allLockedOpF [⟨"x", "q", 7, none⟩, ⟨"r", "p", 0, some 1⟩] 5 true).1 =
      .serverError ∧
    (processLocksOpF [⟨"x", "q", 7, none⟩, ⟨"r", "p", 0, some 1⟩] 5 "p"
        true).1 = .serverError :=
  ⟨⟨by decide, by decide⟩,
   (reclamation_failure_is_server_error
     [⟨"x", "q", 7, none⟩, ⟨"r", "p", 0, some 1⟩] 5 "r" ⟨"r", "p", 0, some 1⟩
     (by decide) (by decide))⟩

/-! ### Frame property of the single-resource operations -/

/-- The records whose `resource_name` differs from the given one, in store
order. -/
def otherRecords (s : Store) (resource_name : String) : Store :=
  s.filter (fun l => l.resource_name ≠ resource_name)

theorem otherRecords_deleteOne (s : Store) (rn : String) :
    otherRecords (deleteOne s rn) rn = otherRecords s rn := by
  induction s with
  | nil => rfl
  | cons lock rest ih =>
      simp only [deleteOne]
      by_cases hc : lock.resource_name = rn
      · rw [if_pos hc]
        simp [otherRecords, List.filter_cons, hc]
      · rw [if_neg hc]
        simp only [otherRecords, List.filter_cons, ne_eq, decide_not] at ih ⊢
        simp [hc, ih]

theorem otherRecords_append (s : Store) (rn : String) (rec : LockRecord)
    (h : rec.resource_name = rn) :
    otherRecords (s ++ [rec]) rn = otherRecords s rn := by
  simp [otherRecords, List.filter_append, h]

theorem acquireInsert_frame (s1 : Store) (now : Nat) (R pid : String)
    (ttl : Option Nat) (race : Option LockRecord)
    (hrace : ∀ rrec ∈ race, rrec.resource_name = R) :
    otherRecords (acquireInsert s1 now R pid ttl race).2 R =
      otherRecords s1 R := by
  have hstep : otherRecords (raceStep s1 race) R = otherRecords s1 R := by
    cases race with
    | none => rfl
    | some rrec =>
        simp only [raceStep]
        by_cases hr : (findOne s1 rrec.resource_name).isSome = true
        · rw [if_pos hr]
        · rw [if_neg hr]
          exact otherRecords_append s1 R rrec (hrace rrec rfl)
  cases hfo : findOne (raceStep s1 race) R with
  | some l =>
      simp only [acquireInsert, hfo]
      exact hstep
  | none =>
      simp only [acquireInsert, hfo]
      rw [otherRecords_append _ R _ rfl]
      exact hstep

/-- C10: frame property — the single-resource operations (acquire, release,
status of resource `R`) never insert, delete or modify a store record whose
`resource_name` differs from `R`: the sequence of other-named records is
unchanged (a concurrent insert modelled by `race` concerns the same
resource). -/
theorem single_resource_frame (s : Store) (now now2 : Nat)
    (R pid pid2 : String) (ttl : Option Nat) (race : Option LockRecord)
    (hrace : ∀ rrec ∈ race, rrec.resource_name = R) :
    otherRecords (acquireOp s now R pid ttl race).2 R = otherRecords s R ∧
    otherRecords (releaseOp s R pid2).2 R = otherRecords s R ∧
    otherRecords (statusOp s now2 R).2 R = otherRecords s R := by
  refine ⟨?_, ?_, ?_⟩
  · by_cases hv : R = "" ∨ pid = ""
    · simp only [acquireOp, if_pos hv]
    · cases hfo : findOne s R with
      | none =>
          simp only [acquireOp, if_neg hv, hfo]
          exact acquireInsert_frame s now R pid ttl race hrace
      | some existingLock =>
          by_cases hexp : isExpired existingLock now = true
          · simp only [acquireOp, if_neg hv, hfo]
            rw [if_pos hexp]
            rw [acquireInsert_frame _ now R pid ttl race hrace]
            exact otherRecords_deleteOne s R
          · simp only [acquireOp, if_neg hv, hfo]
            rw [if_neg hexp]
  · by_cases hv : R = "" ∨ pid2 = ""
    · simp only [releaseOp, if_pos hv]
    · cases hfo : findOne s R with
      | none => simp only [releaseOp, if_neg hv, hfo]
      | some existingLock =>
          by_cases hpid : existingLock.process_id_str ≠ pid2
          · simp only [releaseOp, if_neg hv, hfo]
            rw [if_pos hpid]
          · simp only [releaseOp, if_neg hv, hfo]
            rw [if_neg hpid]
            exact otherRecords_deleteOne s R
  · cases hfo : findOne s R with
    | none => simp only [statusOp, hfo]
    | some lock =>
        by_cases hexp : isExpired lock now2 = true
        · simp only [statusOp, hfo]
          rw [if_pos hexp]
          exact otherRecords_deleteOne s R
        · simp only [statusOp, hfo]
          rw [if_neg hexp]

/-- Witness for `single_resource_frame`. -/
theorem single_resource_frame_witness :
    (∀ rrec ∈ (some ⟨"r", "c", 9, none⟩ : Option LockRecord),
      rrec.resource_name = "r") ∧
    otherRecords (acquireOp [⟨"x", "q", 1, none⟩, ⟨"r", "a", 0, some 2⟩] 9
        "r" "b" (some 4) (some ⟨"r", "c", 9, none⟩)).2 "r" =
      otherRecords [⟨"x", "q", 1, none⟩, ⟨"r", "a", 0, some 2⟩] "r" ∧
    otherRecords (releaseOp [⟨"x", "q", 1, none⟩, ⟨"r", "a", 0, some 2⟩]
        "r" "a").2 "r" =
      otherRecords [⟨"x", "q", 1, none⟩, ⟨"r", "a", 0, some 2⟩] "r" ∧
    otherRecords (statusOp [⟨"x", "q", 1, none⟩, ⟨"r", "a", 0, some 2⟩] 9
        "r").2 "r" =
      otherRecords [⟨"x", "q", 1, none⟩, ⟨"r", "a", 0, some 2⟩] "r" :=
  ⟨by decide,
   single_resource_frame [⟨"x", "q", 1, none⟩, ⟨"r", "a", 0, some 2⟩] 9 9
     "r" "b" "a" (some 4) (some ⟨"r", "c", 9, none⟩) (by decide)⟩
